import Mathlib

/-!
# Iceberg table metadata: live-file queries and snapshot selection

A shallow embedding of `src/include/iceberg_metadata.hpp`.

* `IcebergTable.GetPaths` is translated from the template member function of the
  header: two nested range-for loops over `entries` and `manifest_entries`, each with
  a `continue` guard, pushing `file_path` onto the local vector `ret`.
* The record types of `iceberg_types.hpp` and the bodies of the functions the header
  only declares are not part of the sources at hand; they are modelled from the
  specification and marked as such.

`vector<T>` is a `List T`, `push_back x` is `· ++ [x]`, `uint64_t` fields are `Nat`
(no arithmetic is done on them) and `timestamp_t` is `Int`.
-/

namespace duckdb

/-! ## Data model -/

/-- Modelled from the spec: the enumeration `IcebergManifestContentType` of
`iceberg_types.hpp` (absent), members DATA and DELETES. -/
inductive IcebergManifestContentType where
  | DATA
  | DELETES
  deriving DecidableEq, Repr

/-- Modelled from the spec: the enumeration `IcebergManifestEntryStatusType` of
`iceberg_types.hpp` (absent), members EXISTING, ADDED and DELETED. -/
inductive IcebergManifestEntryStatusType where
  | EXISTING
  | ADDED
  | DELETED
  deriving DecidableEq, Repr

/-- Modelled from the spec: the record `IcebergManifest` of `iceberg_types.hpp` (absent),
the descriptor of one manifest file: its path and its content type. -/
structure IcebergManifest where
  manifest_path : String
  content : IcebergManifestContentType
  deriving DecidableEq, Repr

/-- Modelled from the spec: the record `IcebergManifestEntry` of `iceberg_types.hpp`
(absent), one file-level record of a manifest: lifecycle status and file path. -/
structure IcebergManifestEntry where
  status : IcebergManifestEntryStatusType
  file_path : String
  deriving DecidableEq, Repr

/-- Modelled from the spec: the record `IcebergTableEntry` of `iceberg_types.hpp` (absent),
one manifest paired with the ordered sequence of its entries. -/
structure IcebergTableEntry where
  manifest : IcebergManifest
  manifest_entries : List IcebergManifestEntry
  deriving DecidableEq, Repr

/-- The data members of `struct IcebergTable`: `string path` and
`vector<IcebergTableEntry> entries`. -/
structure IcebergTable where
  path : String
  entries : List IcebergTableEntry
  deriving DecidableEq, Repr

/-! ## `IcebergTable::GetPaths` -/

/-- Everything the body of `GetPaths` can read or write: the object it is called on
(the member function is not `const`, and both loops bind their element by non-const
reference) and the local vector `ret`. -/
structure GetPathsFrame where
  self : IcebergTable
  ret : List String
  deriving DecidableEq, Repr

/-- Body of the inner loop for one `manifest_entry`:
`if (manifest_entry.status == DELETED) continue; ret.push_back(manifest_entry.file_path);` -/
def GetPaths.innerBody (fr : GetPathsFrame) (manifest_entry : IcebergManifestEntry) :
    GetPathsFrame :=
  if manifest_entry.status = IcebergManifestEntryStatusType.DELETED then
    fr
  else
    { fr with ret := fr.ret ++ [manifest_entry.file_path] }

/-- The loop `for (auto &manifest_entry : entry.manifest_entries)`, over the elements
still to be visited. -/
def GetPaths.innerLoop : List IcebergManifestEntry → GetPathsFrame → GetPathsFrame
  | [], fr => fr
  | manifest_entry :: rest, fr => GetPaths.innerLoop rest (GetPaths.innerBody fr manifest_entry)

/-- Body of the outer loop for one `entry`:
`if (entry.manifest.content != TYPE) continue;` followed by the inner loop. -/
def GetPaths.outerBody (TYPE : IcebergManifestContentType) (fr : GetPathsFrame)
    (entry : IcebergTableEntry) : GetPathsFrame :=
  if entry.manifest.content ≠ TYPE then
    fr
  else
    GetPaths.innerLoop entry.manifest_entries fr

/-- The loop `for (auto &entry : entries)`, over the elements still to be visited. -/
def GetPaths.outerLoop (TYPE : IcebergManifestContentType) :
    List IcebergTableEntry → GetPathsFrame → GetPathsFrame
  | [], fr => fr
  | entry :: rest, fr => GetPaths.outerLoop TYPE rest (GetPaths.outerBody TYPE fr entry)

/-- The frame in which `GetPaths<TYPE>()` finishes when called on `self`:
`vector<string> ret;` then the outer loop over `entries`. -/
def GetPaths.run (TYPE : IcebergManifestContentType) (self : IcebergTable) : GetPathsFrame :=
  GetPaths.outerLoop TYPE self.entries { self := self, ret := [] }

/-- The value `IcebergTable::GetPaths<TYPE>()` returns: `return ret;`. -/
def IcebergTable.GetPaths (TYPE : IcebergManifestContentType) (self : IcebergTable) :
    List String :=
  (GetPaths.run TYPE self).ret

/-- The object as `IcebergTable::GetPaths<TYPE>()` leaves it. -/
def IcebergTable.afterGetPaths (TYPE : IcebergManifestContentType) (self : IcebergTable) :
    IcebergTable :=
  (GetPaths.run TYPE self).self

/-! ### The query as the specification words it -/

/-- The live paths of one manifest: the `file_path` of every entry whose status is not
DELETED, in entry order. -/
def livePaths (manifest_entries : List IcebergManifestEntry) : List String :=
  (manifest_entries.filter
    (fun me => decide (me.status ≠ IcebergManifestEntryStatusType.DELETED))).map
    (fun me => me.file_path)

/-- The table entries whose manifest has content type `TYPE`, in order. -/
def typedEntries (TYPE : IcebergManifestContentType) (entries : List IcebergTableEntry) :
    List IcebergTableEntry :=
  entries.filter (fun e => decide (e.manifest.content = TYPE))

/-- The specification of `GetPaths`: keep the table entries of the requested content type
and, for each, append its live paths. -/
def GetPathsSpec (TYPE : IcebergManifestContentType) (t : IcebergTable) : List String :=
  (typedEntries TYPE t.entries).flatMap (fun e => livePaths e.manifest_entries)

/-- The table of the liveness-filtering example: one DATA manifest with entries
ADDED a.parquet, DELETED b.parquet, EXISTING c.parquet. -/
def exampleTable : IcebergTable :=
  { path := "s3://bucket/table"
    entries :=
      [ { manifest := { manifest_path := "m0.avro", content := IcebergManifestContentType.DATA }
          manifest_entries :=
            [ { status := IcebergManifestEntryStatusType.ADDED, file_path := "a.parquet" },
              { status := IcebergManifestEntryStatusType.DELETED, file_path := "b.parquet" },
              { status := IcebergManifestEntryStatusType.EXISTING, file_path := "c.parquet" } ] } ] }

/-- A table with two DATA manifests around a DELETES manifest; x.parquet is live in both
DATA manifests and d.parquet is live in the DELETES manifest. -/
def mixedTable : IcebergTable :=
  { path := "s3://bucket/mixed"
    entries :=
      [ { manifest := { manifest_path := "m0.avro", content := IcebergManifestContentType.DATA }
          manifest_entries :=
            [ { status := IcebergManifestEntryStatusType.ADDED, file_path := "x.parquet" },
              { status := IcebergManifestEntryStatusType.DELETED, file_path := "y.parquet" } ] },
        { manifest :=
            { manifest_path := "m1.avro", content := IcebergManifestContentType.DELETES }
          manifest_entries :=
            [ { status := IcebergManifestEntryStatusType.ADDED, file_path := "d.parquet" } ] },
        { manifest := { manifest_path := "m2.avro", content := IcebergManifestContentType.DATA }
          manifest_entries :=
            [ { status := IcebergManifestEntryStatusType.EXISTING, file_path := "x.parquet" },
              { status := IcebergManifestEntryStatusType.ADDED, file_path := "z.parquet" } ] } ] }

/-! ## `IcebergTable::Load` and its defaulted parameter -/

/-- Modelled from the spec: the error taxonomy of the metadata pipeline (no declaration
of it is among the sources). -/
inductive IcebergError where
  | NotFoundError
  | SnapshotNotFoundError
  | SchemaError
  | PathError
  | IOError
  deriving DecidableEq, Repr

/-- The data members of `class IcebergSnapshot`. -/
structure IcebergSnapshot where
  snapshot_id : Nat
  sequence_number : Nat
  schema_id : Nat
  manifest_list : String
  timestamp_ms : Int
  deriving DecidableEq, Repr

/-- The blob-retrieval collaborator (`FileSystem &fs, FileOpener* opener`): the full content
of the file at a path, when it can be read. -/
abbrev FileSystem := String → Option String

/-- The body of `IcebergTable::Load`, which the header declares and does not define: any
function of the four explicit parameters. -/
abbrev LoadBody :=
  String → IcebergSnapshot → FileSystem → Bool → Except IcebergError IcebergTable

/-- The default the declaration gives the last parameter: `bool allow_moved_paths = false`. -/
def Load.allow_moved_paths_default : Bool := false

/-- The value the parameter `allow_moved_paths` takes at a call site: the argument when the
caller wrote one (`some b`), the declared default when the caller left it out (`none`). -/
def Load.allow_moved_paths_at_call (argument : Option Bool) : Bool :=
  match argument with
  | some b => b
  | none => Load.allow_moved_paths_default

/-- A call of `IcebergTable::Load(iceberg_path, snapshot, fs, opener[, allow_moved_paths])`. -/
def IcebergTable.Load (body : LoadBody) (iceberg_path : String) (snapshot : IcebergSnapshot)
    (fs : FileSystem) (argument : Option Bool) : Except IcebergError IcebergTable :=
  body iceberg_path snapshot fs (Load.allow_moved_paths_at_call argument)

/-! ## Snapshot selection

The header declares `FindLatestSnapshotInternal` and `FindSnapshotByIdTimestampInternal`
without bodies. The `snapshots` array is a list of snapshot records whose required fields
are all present; a pointer into the array is a position together with the element there,
and `nullptr` is `none`. -/

/-- Modelled from the spec: one step of the scan behind `FindLatestSnapshotInternal` (body
absent): the element replaces the current choice unless its `sequence_number` is smaller, so
the maximum is kept and among equal maxima the later position wins. -/
def FindLatestSnapshotInternal.step (best : Option (Nat × IcebergSnapshot)) (idx : Nat)
    (snapshot : IcebergSnapshot) : Option (Nat × IcebergSnapshot) :=
  match best with
  | none => some (idx, snapshot)
  | some (bi, b) =>
    if b.sequence_number ≤ snapshot.sequence_number then some (idx, snapshot) else some (bi, b)

/-- Modelled from the spec: the scan of `FindLatestSnapshotInternal` (body absent) over the
elements from position `idx` on. -/
def FindLatestSnapshotInternal.scan :
    List IcebergSnapshot → Nat → Option (Nat × IcebergSnapshot) → Option (Nat × IcebergSnapshot)
  | [], _, best => best
  | snapshot :: rest, idx, best =>
    FindLatestSnapshotInternal.scan rest (idx + 1)
      (FindLatestSnapshotInternal.step best idx snapshot)

/-- Modelled from the spec: `IcebergSnapshot::FindLatestSnapshotInternal` (body absent):
select the element with the maximum `sequence_number`, preferring the later array position
when sequence numbers are equal. -/
def FindLatestSnapshotInternal (snapshots : List IcebergSnapshot) :
    Option (Nat × IcebergSnapshot) :=
  FindLatestSnapshotInternal.scan snapshots 0 none

/-- Modelled from the spec: `IcebergSnapshot::GetLatestSnapshot` (body absent) on the
`snapshots` array of the current metadata document: the selected snapshot, or
`SnapshotNotFoundError` when nothing is selected. -/
def IcebergSnapshot.GetLatestSnapshot (snapshots : List IcebergSnapshot) :
    Except IcebergError IcebergSnapshot :=
  match FindLatestSnapshotInternal snapshots with
  | some (_, snapshot) => Except.ok snapshot
  | none => Except.error IcebergError.SnapshotNotFoundError

/-- Modelled from the spec: one step of the scan behind `FindSnapshotByIdTimestampInternal`
(body absent). An element later than `timestamp` is passed over; otherwise it replaces the
current choice when its `timestamp_ms` is greater, or equal with a `sequence_number` that is
not smaller. -/
def FindSnapshotByIdTimestampInternal.step (timestamp : Int)
    (best : Option (Nat × IcebergSnapshot)) (idx : Nat) (snapshot : IcebergSnapshot) :
    Option (Nat × IcebergSnapshot) :=
  if timestamp < snapshot.timestamp_ms then
    best
  else
    match best with
    | none => some (idx, snapshot)
    | some (bi, b) =>
      if b.timestamp_ms < snapshot.timestamp_ms
          ∨ (b.timestamp_ms = snapshot.timestamp_ms
              ∧ b.sequence_number ≤ snapshot.sequence_number) then
        some (idx, snapshot)
      else
        some (bi, b)

/-- Modelled from the spec: the scan of `FindSnapshotByIdTimestampInternal` (body absent)
over the elements from position `idx` on. -/
def FindSnapshotByIdTimestampInternal.scan (timestamp : Int) :
    List IcebergSnapshot → Nat → Option (Nat × IcebergSnapshot) → Option (Nat × IcebergSnapshot)
  | [], _, best => best
  | snapshot :: rest, idx, best =>
    FindSnapshotByIdTimestampInternal.scan timestamp rest (idx + 1)
      (FindSnapshotByIdTimestampInternal.step timestamp best idx snapshot)

/-- Modelled from the spec: `IcebergSnapshot::FindSnapshotByIdTimestampInternal` (body
absent): select the snapshot with the greatest `timestamp_ms` that is at most `timestamp`;
among snapshots sharing that timestamp the greatest `sequence_number`, then the later array
position. -/
def FindSnapshotByIdTimestampInternal (snapshots : List IcebergSnapshot) (timestamp : Int) :
    Option (Nat × IcebergSnapshot) :=
  FindSnapshotByIdTimestampInternal.scan timestamp snapshots 0 none

/-- Modelled from the spec: `IcebergSnapshot::GetSnapshotByTimestamp` (body absent) on the
`snapshots` array of the current metadata document: the selected snapshot, or
`SnapshotNotFoundError` when no snapshot is at or before `timestamp`. -/
def IcebergSnapshot.GetSnapshotByTimestamp (snapshots : List IcebergSnapshot)
    (timestamp : Int) : Except IcebergError IcebergSnapshot :=
  match FindSnapshotByIdTimestampInternal snapshots timestamp with
  | some (_, snapshot) => Except.ok snapshot
  | none => Except.error IcebergError.SnapshotNotFoundError

/-- The three snapshots of the monotonic-selection example: ids 1, 2, 3 with sequence
numbers 1, 2, 3 and timestamps 100, 200, 300. -/
def exampleSnapshots : List IcebergSnapshot :=
  [ { snapshot_id := 1, sequence_number := 1, schema_id := 0,
      manifest_list := "snap-1.avro", timestamp_ms := 100 },
    { snapshot_id := 2, sequence_number := 2, schema_id := 0,
      manifest_list := "snap-2.avro", timestamp_ms := 200 },
    { snapshot_id := 3, sequence_number := 3, schema_id := 0,
      manifest_list := "snap-3.avro", timestamp_ms := 300 } ]

/-- What the scan of `FindLatestSnapshotInternal` has established once the elements `seen`
are behind it: nothing is chosen exactly when nothing was seen, and a choice is an element
of `seen` at its recorded position, of maximal `sequence_number`, at the last position
where that maximum occurs. -/
def LatestInv (seen : List IcebergSnapshot) (best : Option (Nat × IcebergSnapshot)) : Prop :=
  match best with
  | none => seen = []
  | some (bi, b) =>
    seen[bi]? = some b ∧
      ∀ (j : Nat) (s : IcebergSnapshot), seen[j]? = some s →
        s.sequence_number ≤ b.sequence_number ∧
          (s.sequence_number = b.sequence_number → j ≤ bi)

/-- What the scan of `FindSnapshotByIdTimestampInternal` has established once the elements
`seen` are behind it: nothing is chosen exactly when no element seen is at or before
`timestamp`, and a choice is an element of `seen` at its recorded position, at or before
`timestamp`, with the greatest such `timestamp_ms`. -/
def TimestampInv (timestamp : Int) (seen : List IcebergSnapshot)
    (best : Option (Nat × IcebergSnapshot)) : Prop :=
  match best with
  | none => ∀ s ∈ seen, timestamp < s.timestamp_ms
  | some (bi, b) =>
    seen[bi]? = some b ∧ b.timestamp_ms ≤ timestamp ∧
      ∀ s ∈ seen, s.timestamp_ms ≤ timestamp → s.timestamp_ms ≤ b.timestamp_ms

/-! ## Helper lemmas on the loops -/

theorem innerLoop_self (mes : List IcebergManifestEntry) (fr : GetPathsFrame) :
    (GetPaths.innerLoop mes fr).self = fr.self := by
  induction mes generalizing fr with
  | nil => rfl
  | cons me rest ih =>
    rw [GetPaths.innerLoop, ih]
    unfold GetPaths.innerBody
    split <;> rfl

theorem innerLoop_ret (mes : List IcebergManifestEntry) (fr : GetPathsFrame) :
    (GetPaths.innerLoop mes fr).ret = fr.ret ++ livePaths mes := by
  induction mes generalizing fr with
  | nil => simp [GetPaths.innerLoop, livePaths]
  | cons me rest ih =>
    rw [GetPaths.innerLoop, ih]
    unfold GetPaths.innerBody
    by_cases h : me.status = IcebergManifestEntryStatusType.DELETED
    · simp [h, livePaths]
    · simp [h, livePaths]

theorem outerLoop_self (TYPE : IcebergManifestContentType) (es : List IcebergTableEntry)
    (fr : GetPathsFrame) : (GetPaths.outerLoop TYPE es fr).self = fr.self := by
  induction es generalizing fr with
  | nil => rfl
  | cons e rest ih =>
    rw [GetPaths.outerLoop, ih]
    unfold GetPaths.outerBody
    split
    · rfl
    · exact innerLoop_self _ _

theorem outerLoop_ret (TYPE : IcebergManifestContentType) (es : List IcebergTableEntry)
    (fr : GetPathsFrame) :
    (GetPaths.outerLoop TYPE es fr).ret
      = fr.ret ++ (typedEntries TYPE es).flatMap (fun e => livePaths e.manifest_entries) := by
  induction es generalizing fr with
  | nil => simp [GetPaths.outerLoop, typedEntries]
  | cons e rest ih =>
    rw [GetPaths.outerLoop, ih]
    unfold GetPaths.outerBody
    by_cases h : e.manifest.content = TYPE
    · simp [h, typedEntries, innerLoop_ret]
    · simp [h, typedEntries]

theorem GetPaths_eq_spec (TYPE : IcebergManifestContentType) (t : IcebergTable) :
    t.GetPaths TYPE = GetPathsSpec TYPE t := by
  simp [IcebergTable.GetPaths, GetPaths.run, outerLoop_ret, GetPathsSpec]

theorem typedEntries_append (TYPE : IcebergManifestContentType)
    (xs ys : List IcebergTableEntry) :
    typedEntries TYPE (xs ++ ys) = typedEntries TYPE xs ++ typedEntries TYPE ys := by
  simp [typedEntries]

theorem livePaths_length (mes : List IcebergManifestEntry) :
    (livePaths mes).length
      = mes.countP (fun me => decide (me.status ≠ IcebergManifestEntryStatusType.DELETED)) := by
  simp [livePaths, List.countP_eq_length_filter]

theorem livePaths_sublist (mes : List IcebergManifestEntry) :
    (livePaths mes).Sublist (mes.map (fun me => me.file_path)) := by
  unfold livePaths
  exact (List.filter_sublist mes).map _

theorem mem_livePaths (p : String) (mes : List IcebergManifestEntry) :
    p ∈ livePaths mes ↔
      ∃ me ∈ mes, me.status ≠ IcebergManifestEntryStatusType.DELETED ∧ me.file_path = p := by
  simp [livePaths, and_assoc]

theorem split_at_two_positions {α : Type} (l : List α) (i j : Nat) (a b : α)
    (hij : i < j) (hi : l[i]? = some a) (hj : l[j]? = some b) :
    ∃ l1 l2 l3, l = l1 ++ a :: (l2 ++ b :: l3) := by
  induction l generalizing i j with
  | nil => simp at hi
  | cons x xs ih =>
    cases i with
    | zero =>
      obtain ⟨k, rfl⟩ : ∃ k, j = k + 1 := ⟨j - 1, by omega⟩
      simp only [List.getElem?_cons_zero, Option.some.injEq] at hi
      simp only [List.getElem?_cons_succ] at hj
      subst hi
      refine ⟨[], xs.take k, xs.drop (k + 1), ?_⟩
      have hk : k < xs.length := by
        by_contra hlt
        rw [List.getElem?_eq_none (by omega)] at hj
        exact Option.noConfusion hj
      have hb : xs[k] = b := by
        rw [List.getElem?_eq_getElem hk] at hj
        exact Option.some.inj hj
      have hd : xs.drop k = b :: xs.drop (k + 1) := by
        rw [← hb]
        exact List.drop_eq_getElem_cons hk
      simp only [List.nil_append]
      rw [← hd, List.take_append_drop]
    | succ i =>
      obtain ⟨k, rfl⟩ : ∃ k, j = k + 1 := ⟨j - 1, by omega⟩
      simp only [List.getElem?_cons_succ] at hi hj
      obtain ⟨l1, l2, l3, h⟩ := ih i k (by omega) hi hj
      exact ⟨x :: l1, l2, l3, by simp [h]⟩

theorem getElem?_snoc_cases {α : Type} (seen : List α) (x y : α) (j : Nat)
    (h : (seen ++ [x])[j]? = some y) :
    seen[j]? = some y ∨ (j = seen.length ∧ y = x) := by
  rw [List.getElem?_append] at h
  split at h
  · exact Or.inl h
  · rename_i hlt
    right
    have hj : j - seen.length = 0 := by
      by_contra hne
      rw [List.getElem?_eq_none (by simp; omega)] at h
      exact Option.noConfusion h
    rw [hj] at h
    simp only [List.getElem?_cons_zero, Option.some.injEq] at h
    exact ⟨by omega, h.symm⟩

theorem getElem?_snoc_of_some {α : Type} (seen : List α) (x y : α) (j : Nat)
    (h : seen[j]? = some y) : (seen ++ [x])[j]? = some y := by
  have hj : j < seen.length := by
    by_contra hlt
    rw [List.getElem?_eq_none (by omega)] at h
    exact Option.noConfusion h
  rw [List.getElem?_append_left hj]
  exact h

theorem getElem?_lt_of_some {α : Type} (seen : List α) (y : α) (j : Nat)
    (h : seen[j]? = some y) : j < seen.length := by
  by_contra hlt
  rw [List.getElem?_eq_none (by omega)] at h
  exact Option.noConfusion h

theorem LatestInv_step (seen : List IcebergSnapshot) (best : Option (Nat × IcebergSnapshot))
    (s : IcebergSnapshot) (h : LatestInv seen best) :
    LatestInv (seen ++ [s]) (FindLatestSnapshotInternal.step best seen.length s) := by
  cases best with
  | none =>
    have hnil : seen = [] := h
    subst hnil
    refine ⟨by simp, ?_⟩
    intro j s2 hj
    rcases getElem?_snoc_cases [] s s2 j hj with h1 | ⟨h1, h2⟩
    · simp at h1
    · subst h2
      exact ⟨le_refl _, fun _ => by simp at h1; omega⟩
  | some bb =>
    obtain ⟨bi, b⟩ := bb
    obtain ⟨hb, hmax⟩ : seen[bi]? = some b ∧
        ∀ (j : Nat) (s2 : IcebergSnapshot), seen[j]? = some s2 →
          s2.sequence_number ≤ b.sequence_number ∧
            (s2.sequence_number = b.sequence_number → j ≤ bi) := h
    have hbi := getElem?_lt_of_some seen b bi hb
    unfold FindLatestSnapshotInternal.step
    by_cases hc : b.sequence_number ≤ s.sequence_number
    · simp only [hc, if_true]
      refine ⟨by simp, ?_⟩
      intro j s2 hj
      rcases getElem?_snoc_cases seen s s2 j hj with h1 | ⟨h1, h2⟩
      · have := hmax j s2 h1
        have hjl := getElem?_lt_of_some seen s2 j h1
        exact ⟨by omega, fun _ => by omega⟩
      · subst h2
        exact ⟨le_refl _, fun _ => by omega⟩
    · simp only [hc, if_false]
      refine ⟨getElem?_snoc_of_some seen s b bi hb, ?_⟩
      intro j s2 hj
      rcases getElem?_snoc_cases seen s s2 j hj with h1 | ⟨h1, h2⟩
      · exact hmax j s2 h1
      · subst h2
        exact ⟨by omega, fun heq => by omega⟩

theorem LatestInv_scan (rest seen : List IcebergSnapshot)
    (best : Option (Nat × IcebergSnapshot)) (h : LatestInv seen best) :
    LatestInv (seen ++ rest) (FindLatestSnapshotInternal.scan rest seen.length best) := by
  induction rest generalizing seen best with
  | nil => simpa [FindLatestSnapshotInternal.scan] using h
  | cons s rest ih =>
    have hstep := ih (seen ++ [s]) _ (LatestInv_step seen best s h)
    simpa [FindLatestSnapshotInternal.scan] using hstep

theorem LatestInv_final (snapshots : List IcebergSnapshot) :
    LatestInv snapshots (FindLatestSnapshotInternal snapshots) := by
  have h := LatestInv_scan snapshots [] none rfl
  simpa [FindLatestSnapshotInternal] using h

theorem TimestampInv_step (timestamp : Int) (seen : List IcebergSnapshot)
    (best : Option (Nat × IcebergSnapshot)) (s : IcebergSnapshot)
    (h : TimestampInv timestamp seen best) :
    TimestampInv timestamp (seen ++ [s])
      (FindSnapshotByIdTimestampInternal.step timestamp best seen.length s) := by
  unfold FindSnapshotByIdTimestampInternal.step
  by_cases hlate : timestamp < s.timestamp_ms
  · simp only [hlate, if_true]
    cases best with
    | none =>
      have hall : ∀ x ∈ seen, timestamp < x.timestamp_ms := h
      intro x hx
      rcases List.mem_append.mp hx with hx | hx
      · exact hall x hx
      · rw [List.mem_singleton.mp hx]
        exact hlate
    | some bb =>
      obtain ⟨bi, b⟩ := bb
      obtain ⟨hb, hle, hmax⟩ : seen[bi]? = some b ∧ b.timestamp_ms ≤ timestamp ∧
          ∀ x ∈ seen, x.timestamp_ms ≤ timestamp → x.timestamp_ms ≤ b.timestamp_ms := h
      refine ⟨getElem?_snoc_of_some seen s b bi hb, hle, ?_⟩
      intro x hx hxle
      rcases List.mem_append.mp hx with hx | hx
      · exact hmax x hx hxle
      · rw [List.mem_singleton.mp hx] at hxle
        omega
  · simp only [hlate, if_false]
    have hsle : s.timestamp_ms ≤ timestamp := by omega
    cases best with
    | none =>
      have hall : ∀ x ∈ seen, timestamp < x.timestamp_ms := h
      refine ⟨by simp, hsle, ?_⟩
      intro x hx hxle
      rcases List.mem_append.mp hx with hx | hx
      · have := hall x hx
        omega
      · rw [List.mem_singleton.mp hx]
    | some bb =>
      obtain ⟨bi, b⟩ := bb
      obtain ⟨hb, hle, hmax⟩ : seen[bi]? = some b ∧ b.timestamp_ms ≤ timestamp ∧
          ∀ x ∈ seen, x.timestamp_ms ≤ timestamp → x.timestamp_ms ≤ b.timestamp_ms := h
      by_cases hc : b.timestamp_ms < s.timestamp_ms
          ∨ (b.timestamp_ms = s.timestamp_ms ∧ b.sequence_number ≤ s.sequence_number)
      · simp only [hc, if_true]
        refine ⟨by simp, hsle, ?_⟩
        intro x hx hxle
        rcases List.mem_append.mp hx with hx | hx
        · have := hmax x hx hxle
          rcases hc with hc | ⟨hc, _⟩ <;> omega
        · rw [List.mem_singleton.mp hx]
      · simp only [hc, if_false]
        refine ⟨getElem?_snoc_of_some seen s b bi hb, hle, ?_⟩
        intro x hx hxle
        rcases List.mem_append.mp hx with hx | hx
        · exact hmax x hx hxle
        · rw [List.mem_singleton.mp hx]
          have : ¬ b.timestamp_ms < s.timestamp_ms := fun hlt => hc (Or.inl hlt)
          omega

theorem TimestampInv_scan (timestamp : Int) (rest seen : List IcebergSnapshot)
    (best : Option (Nat × IcebergSnapshot)) (h : TimestampInv timestamp seen best) :
    TimestampInv timestamp (seen ++ rest)
      (FindSnapshotByIdTimestampInternal.scan timestamp rest seen.length best) := by
  induction rest generalizing seen best with
  | nil => simpa [FindSnapshotByIdTimestampInternal.scan] using h
  | cons s rest ih =>
    have hstep := ih (seen ++ [s]) _ (TimestampInv_step timestamp seen best s h)
    simpa [FindSnapshotByIdTimestampInternal.scan] using hstep

theorem TimestampInv_final (snapshots : List IcebergSnapshot) (timestamp : Int) :
    TimestampInv timestamp snapshots
      (FindSnapshotByIdTimestampInternal snapshots timestamp) := by
  have h := TimestampInv_scan timestamp snapshots [] none (by simp [TimestampInv])
  simpa [FindSnapshotByIdTimestampInternal] using h

/-! ## The claims on `GetPaths` -/

/-- C1. `GetPaths<TYPE>` returns exactly the list obtained by walking `entries` in order,
skipping every table entry whose manifest content differs from `TYPE`, and appending for
each remaining one the `file_path` of every manifest entry that is not DELETED. On the
example table `GetPaths<DATA>` is a.parquet, c.parquet and `GetPaths<DELETES>` is empty. -/
theorem C1_GetPaths_eq_flatMap_filter (TYPE : IcebergManifestContentType) (t : IcebergTable) :
    t.GetPaths TYPE
        = (t.entries.filter (fun e => decide (e.manifest.content = TYPE))).flatMap
            (fun e =>
              (e.manifest_entries.filter
                (fun me => decide (me.status ≠ IcebergManifestEntryStatusType.DELETED))).map
                (fun me => me.file_path))
      ∧ exampleTable.GetPaths IcebergManifestContentType.DATA = ["a.parquet", "c.parquet"]
      ∧ exampleTable.GetPaths IcebergManifestContentType.DELETES = [] := by
  refine ⟨?_, by decide, by decide⟩
  rw [GetPaths_eq_spec]
  rfl

/-- C2. A path occurs in `GetPaths<TYPE>` if and only if some table entry whose manifest
content is `TYPE` holds a manifest entry with that `file_path` whose status is not DELETED. -/
theorem C2_mem_GetPaths_iff (TYPE : IcebergManifestContentType) (t : IcebergTable)
    (p : String) :
    p ∈ t.GetPaths TYPE ↔
      ∃ e ∈ t.entries, e.manifest.content = TYPE ∧
        ∃ me ∈ e.manifest_entries,
          me.file_path = p ∧ me.status ≠ IcebergManifestEntryStatusType.DELETED := by
  rw [GetPaths_eq_spec]
  simp only [GetPathsSpec, typedEntries, List.mem_flatMap, List.mem_filter, mem_livePaths,
    decide_eq_true_eq]
  constructor
  · rintro ⟨e, ⟨he, hc⟩, me, hme, hs, hp⟩
    exact ⟨e, he, hc, me, hme, hp, hs⟩
  · rintro ⟨e, he, hc, me, hme, hp, hs⟩
    exact ⟨e, ⟨he, hc⟩, me, hme, hs, hp⟩

/-- C3. Content-type partition: `GetPaths<TYPE>` of a table equals `GetPaths<TYPE>` of the
table with every entry of another content type removed; two tables whose `TYPE` entries
agree in order give the same result; a table with no `TYPE` manifest gives the empty list. -/
theorem C3_GetPaths_content_partition (TYPE : IcebergManifestContentType) (t : IcebergTable) :
    t.GetPaths TYPE
        = IcebergTable.GetPaths TYPE
            { t with entries := t.entries.filter (fun e => decide (e.manifest.content = TYPE)) }
      ∧ (∀ t2 : IcebergTable,
          t.entries.filter (fun e => decide (e.manifest.content = TYPE))
              = t2.entries.filter (fun e => decide (e.manifest.content = TYPE)) →
            t.GetPaths TYPE = t2.GetPaths TYPE)
      ∧ ((∀ e ∈ t.entries, e.manifest.content ≠ TYPE) → t.GetPaths TYPE = []) := by
  refine ⟨?_, ?_, ?_⟩
  · simp [GetPaths_eq_spec, GetPathsSpec, typedEntries]
  · intro t2 h
    simp only [GetPaths_eq_spec, GetPathsSpec, typedEntries, h]
  · intro h
    have hnil : typedEntries TYPE t.entries = [] := by
      simp only [typedEntries, List.filter_eq_nil_iff, decide_eq_true_eq]
      exact h
    simp [GetPaths_eq_spec, GetPathsSpec, hnil]

/-- C4. `GetPaths` does not de-duplicate: the length of `GetPaths<TYPE>` is the total number
of non-DELETED manifest entries over the table entries of content `TYPE`; and a path carried
by a live entry in two different `TYPE` table entries occurs at least twice in the result. -/
theorem C4_GetPaths_length_and_duplicates (TYPE : IcebergManifestContentType)
    (t : IcebergTable) :
    (t.GetPaths TYPE).length
        = ((t.entries.filter (fun e => decide (e.manifest.content = TYPE))).map
            (fun e => e.manifest_entries.countP
              (fun me => decide (me.status ≠ IcebergManifestEntryStatusType.DELETED)))).sum
      ∧ ∀ (i j : Nat) (ei ej : IcebergTableEntry) (p : String),
          i < j → t.entries[i]? = some ei → t.entries[j]? = some ej →
          ei.manifest.content = TYPE → ej.manifest.content = TYPE →
          (∃ me ∈ ei.manifest_entries,
            me.status ≠ IcebergManifestEntryStatusType.DELETED ∧ me.file_path = p) →
          (∃ me ∈ ej.manifest_entries,
            me.status ≠ IcebergManifestEntryStatusType.DELETED ∧ me.file_path = p) →
          2 ≤ (t.GetPaths TYPE).count p := by
  constructor
  · rw [GetPaths_eq_spec]
    simp only [GetPathsSpec, typedEntries, List.length_flatMap, Function.comp_def,
      livePaths_length]
  · intro i j ei ej p hij hi hj hci hcj hpi hpj
    obtain ⟨l1, l2, l3, hl⟩ := split_at_two_positions t.entries i j ei ej hij hi hj
    have h1 : 1 ≤ (livePaths ei.manifest_entries).count p :=
      List.count_pos_iff.mpr ((mem_livePaths p _).mpr hpi)
    have h2 : 1 ≤ (livePaths ej.manifest_entries).count p :=
      List.count_pos_iff.mpr ((mem_livePaths p _).mpr hpj)
    rw [GetPaths_eq_spec]
    simp only [GetPathsSpec, hl, typedEntries, List.filter_append, List.filter_cons, hci, hcj,
      decide_True, if_true, List.flatMap_append, List.flatMap_cons, List.count_append]
    omega

/-- C4 at the mixed table: x.parquet is live in the DATA manifests at positions 0 and 2, so
it occurs at least twice in `GetPaths<DATA>`, which has three elements. -/
theorem C4_duplicates_example :
    2 ≤ (mixedTable.GetPaths IcebergManifestContentType.DATA).count "x.parquet"
      ∧ mixedTable.GetPaths IcebergManifestContentType.DATA
          = ["x.parquet", "x.parquet", "z.parquet"] :=
  ⟨(C4_GetPaths_length_and_duplicates IcebergManifestContentType.DATA mixedTable).2 0 2
      _ _ "x.parquet" (by decide) rfl rfl rfl rfl
      ⟨_, List.mem_cons_self _ _, by decide, rfl⟩
      ⟨_, List.mem_cons_self _ _, by decide, rfl⟩,
    by decide⟩

/-- C5. Order preservation: `GetPaths<TYPE>` is a sublist of the list of all file paths of
the table, taken manifest by manifest in `entries` order and in entry order within each. -/
theorem C5_GetPaths_sublist_allPaths (TYPE : IcebergManifestContentType) (t : IcebergTable) :
    (t.GetPaths TYPE).Sublist
      (t.entries.flatMap (fun e => e.manifest_entries.map (fun me => me.file_path))) := by
  rw [GetPaths_eq_spec]
  unfold GetPathsSpec
  generalize t.entries = es
  induction es with
  | nil => simp [typedEntries]
  | cons e rest ih =>
    by_cases h : e.manifest.content = TYPE
    · simp only [typedEntries, List.filter_cons, h, decide_True, if_true, List.flatMap_cons]
      exact (livePaths_sublist _).append ih
    · simp only [typedEntries, List.filter_cons, h, decide_False, List.flatMap_cons]
      exact ih.trans (List.sublist_append_right _ _)

/-- C6. `GetPaths` is a read-only query: after `GetPaths<TYPE>()` the table is the table it
was called on, so its `path` and its `entries` (DELETED manifest entries included, in the
same order) are unchanged, and a second call returns the same list. -/
theorem C6_GetPaths_read_only (TYPE : IcebergManifestContentType) (t : IcebergTable) :
    t.afterGetPaths TYPE = t
      ∧ (t.afterGetPaths TYPE).path = t.path
      ∧ (t.afterGetPaths TYPE).entries = t.entries
      ∧ (∀ TYPE2 : IcebergManifestContentType,
          (t.afterGetPaths TYPE).GetPaths TYPE2 = t.GetPaths TYPE2)
      ∧ (∀ e ∈ t.entries, ∀ me ∈ e.manifest_entries,
          me.status = IcebergManifestEntryStatusType.DELETED →
            ∃ e2 ∈ (t.afterGetPaths TYPE).entries, me ∈ e2.manifest_entries) := by
  have h : t.afterGetPaths TYPE = t := by
    simp [IcebergTable.afterGetPaths, GetPaths.run, outerLoop_self]
  refine ⟨h, by rw [h], by rw [h], fun _ => by rw [h], ?_⟩
  intro e he me hme _
  rw [h]
  exact ⟨e, he, hme⟩

/-- C10. `GetPaths` distributes over concatenation of table entries: on entries `xs ++ ys` it
returns the result on `xs` followed by the result on `ys` (whatever the tables' `path`), it
returns the empty list on a table with no entries, and so the result on `e :: rest` is the
contribution of `e` alone followed by the result on `rest`. -/
theorem C10_GetPaths_append (TYPE : IcebergManifestContentType) (p p1 p2 : String)
    (xs ys : List IcebergTableEntry) :
    IcebergTable.GetPaths TYPE { path := p, entries := xs ++ ys }
        = IcebergTable.GetPaths TYPE { path := p1, entries := xs }
          ++ IcebergTable.GetPaths TYPE { path := p2, entries := ys }
      ∧ IcebergTable.GetPaths TYPE { path := p, entries := [] } = []
      ∧ (∀ (e : IcebergTableEntry) (rest : List IcebergTableEntry),
          IcebergTable.GetPaths TYPE { path := p, entries := e :: rest }
            = IcebergTable.GetPaths TYPE { path := p1, entries := [e] }
              ++ IcebergTable.GetPaths TYPE { path := p2, entries := rest }) := by
  refine ⟨?_, ?_, ?_⟩
  · simp [GetPaths_eq_spec, GetPathsSpec, typedEntries_append]
  · simp [GetPaths_eq_spec, GetPathsSpec, typedEntries]
  · intro e rest
    have h : e :: rest = [e] ++ rest := rfl
    simp only [GetPaths_eq_spec, GetPathsSpec, h, typedEntries_append, List.flatMap_append]

/-! ## The claims on `Load` and on snapshot selection -/

/-- C7. The relocated-paths mode is never the default: whatever the body of `Load` does, a
call that leaves `allow_moved_paths` out is the call with `allow_moved_paths = false`, and
the parameter is true at a call exactly when the caller wrote `true`. -/
theorem C7_Load_default_is_false (body : LoadBody) (iceberg_path : String)
    (snapshot : IcebergSnapshot) (fs : FileSystem) :
    IcebergTable.Load body iceberg_path snapshot fs none
        = IcebergTable.Load body iceberg_path snapshot fs (some false)
      ∧ IcebergTable.Load body iceberg_path snapshot fs none
        = body iceberg_path snapshot fs false
      ∧ ∀ argument : Option Bool,
          Load.allow_moved_paths_at_call argument = true ↔ argument = some true := by
  refine ⟨rfl, rfl, ?_⟩
  intro argument
  cases argument with
  | none => simp [Load.allow_moved_paths_at_call, Load.allow_moved_paths_default]
  | some b => simp [Load.allow_moved_paths_at_call]

/-- C8. For a non-empty `snapshots` array, `FindLatestSnapshotInternal` selects an element
of the array, `GetLatestSnapshot` returns it, its `sequence_number` is the maximum of the
array, and it stands at the latest position where that maximum occurs. -/
theorem C8_latest_is_max_sequence_number (snapshots : List IcebergSnapshot)
    (hne : snapshots ≠ []) :
    ∃ (i : Nat) (r : IcebergSnapshot),
      FindLatestSnapshotInternal snapshots = some (i, r)
        ∧ IcebergSnapshot.GetLatestSnapshot snapshots = Except.ok r
        ∧ snapshots[i]? = some r
        ∧ ∀ (j : Nat) (s : IcebergSnapshot), snapshots[j]? = some s →
            s.sequence_number ≤ r.sequence_number
              ∧ (s.sequence_number = r.sequence_number → j ≤ i) := by
  have hinv := LatestInv_final snapshots
  cases hbest : FindLatestSnapshotInternal snapshots with
  | none =>
    rw [hbest] at hinv
    exact absurd hinv hne
  | some bb =>
    obtain ⟨bi, b⟩ := bb
    rw [hbest] at hinv
    obtain ⟨hb, hmax⟩ : snapshots[bi]? = some b ∧
        ∀ (j : Nat) (s : IcebergSnapshot), snapshots[j]? = some s →
          s.sequence_number ≤ b.sequence_number ∧
            (s.sequence_number = b.sequence_number → j ≤ bi) := hinv
    refine ⟨bi, b, rfl, ?_, hb, hmax⟩
    simp [IcebergSnapshot.GetLatestSnapshot, hbest]

/-- C8 at the example: the array with ids 1, 2, 3 is not empty, the theorem applies to it,
and the snapshot returned has id 3. -/
theorem C8_latest_example :
    exampleSnapshots ≠ []
      ∧ (∃ (i : Nat) (r : IcebergSnapshot),
          FindLatestSnapshotInternal exampleSnapshots = some (i, r)
            ∧ IcebergSnapshot.GetLatestSnapshot exampleSnapshots = Except.ok r
            ∧ exampleSnapshots[i]? = some r
            ∧ ∀ (j : Nat) (s : IcebergSnapshot), exampleSnapshots[j]? = some s →
                s.sequence_number ≤ r.sequence_number
                  ∧ (s.sequence_number = r.sequence_number → j ≤ i))
      ∧ (∃ r, IcebergSnapshot.GetLatestSnapshot exampleSnapshots = Except.ok r
          ∧ r.snapshot_id = 3) :=
  ⟨by decide, C8_latest_is_max_sequence_number exampleSnapshots (by decide), ⟨_, rfl, rfl⟩⟩

/-- C9. If some snapshot has `timestamp_ms` at most `timestamp`, `GetSnapshotByTimestamp`
returns an element of the array that is at most `timestamp` and has the greatest
`timestamp_ms` among those that are; otherwise it fails with `SnapshotNotFoundError`. -/
theorem C9_by_timestamp_greatest_not_after (snapshots : List IcebergSnapshot)
    (timestamp : Int) :
    ((∃ s ∈ snapshots, s.timestamp_ms ≤ timestamp) →
        ∃ (i : Nat) (r : IcebergSnapshot),
          IcebergSnapshot.GetSnapshotByTimestamp snapshots timestamp = Except.ok r
            ∧ snapshots[i]? = some r
            ∧ r.timestamp_ms ≤ timestamp
            ∧ ∀ s ∈ snapshots, s.timestamp_ms ≤ timestamp → s.timestamp_ms ≤ r.timestamp_ms)
      ∧ ((¬ ∃ s ∈ snapshots, s.timestamp_ms ≤ timestamp) →
          IcebergSnapshot.GetSnapshotByTimestamp snapshots timestamp
            = Except.error IcebergError.SnapshotNotFoundError) := by
  have hinv := TimestampInv_final snapshots timestamp
  cases hbest : FindSnapshotByIdTimestampInternal snapshots timestamp with
  | none =>
    rw [hbest] at hinv
    have hall : ∀ x ∈ snapshots, timestamp < x.timestamp_ms := hinv
    constructor
    · rintro ⟨s, hs, hle⟩
      have := hall s hs
      omega
    · intro _
      simp [IcebergSnapshot.GetSnapshotByTimestamp, hbest]
  | some bb =>
    obtain ⟨bi, b⟩ := bb
    rw [hbest] at hinv
    obtain ⟨hb, hle, hmax⟩ : snapshots[bi]? = some b ∧ b.timestamp_ms ≤ timestamp ∧
        ∀ x ∈ snapshots, x.timestamp_ms ≤ timestamp → x.timestamp_ms ≤ b.timestamp_ms := hinv
    constructor
    · intro _
      refine ⟨bi, b, ?_, hb, hle, hmax⟩
      simp [IcebergSnapshot.GetSnapshotByTimestamp, hbest]
    · intro hno
      exact absurd ⟨b, List.getElem?_mem hb, hle⟩ hno

/-- C9 at the example: on the array with timestamps 100, 200, 300 the query at 250 returns
the snapshot with id 2 and the query at 50 fails with `SnapshotNotFoundError`. -/
theorem C9_by_timestamp_example :
    (∃ (i : Nat) (r : IcebergSnapshot),
        IcebergSnapshot.GetSnapshotByTimestamp exampleSnapshots 250 = Except.ok r
          ∧ exampleSnapshots[i]? = some r
          ∧ r.timestamp_ms ≤ 250
          ∧ ∀ s ∈ exampleSnapshots, s.timestamp_ms ≤ 250 → s.timestamp_ms ≤ r.timestamp_ms)
      ∧ (∃ r, IcebergSnapshot.GetSnapshotByTimestamp exampleSnapshots 250 = Except.ok r
          ∧ r.snapshot_id = 2 ∧ r.timestamp_ms = 200)
      ∧ IcebergSnapshot.GetSnapshotByTimestamp exampleSnapshots 50
          = Except.error IcebergError.SnapshotNotFoundError :=
  ⟨(C9_by_timestamp_greatest_not_after exampleSnapshots 250).1
      ⟨_, List.mem_cons_self _ _, by decide⟩,
    ⟨_, rfl, rfl, rfl⟩,
    (C9_by_timestamp_greatest_not_after exampleSnapshots 50).2 (by decide)⟩

end duckdb
